import Mathlib

/-
Verification of the crates-ectype mirroring tool (src/main.rs).

The development shallowly embeds the core reconciliation pipeline:
`Crate` records and their ordering, `read_crate_index` (index traversal,
selection policy, deny-list removal), `fetch_crates` (skip/fetch decision,
checksum verification, atomic materialization of archive files, deferred
mismatch reporting) and `replace_url` (config document update).

File contents are modelled as byte lists (`List Nat`), the archive directory
as a partial map from filename to content, and the SHA-256 digest as an
uninterpreted function parameter `sha : List Nat → String` (the digest itself
is an external pure primitive; all claims are about how its result is used).
-/

namespace CratesEctype

/-- Embeds the `ConfigJsonFile` struct (`config.json` in the index: fields
`dl`, `api`, optional `dl_orig`). -/
structure ConfigJsonFile where
  dl : String
  api : String
  dl_orig : Option String
deriving DecidableEq, Repr

/-- Embeds the policy-relevant fields of the `Settings` struct.  The
CLI/bookkeeping fields (`help`, `version`, `update_index`, `replace`,
`archive`) are out-of-scope plumbing and carry no core logic. -/
structure Settings where
  download_yanked : Bool
  check_sums : Bool
  strict_mode : Bool
  download_old : Bool
  use_orig_dl : Bool
deriving DecidableEq, Repr

/-- Embeds the `Crate` struct: one `.crate` file record from an index line. -/
structure Crate where
  name : String
  vers : String
  yanked : Bool
  cksum : String
deriving DecidableEq, Repr

/-- Embeds `Crate::new`: used only to build the deny-list entries
(`yanked: true`, empty checksum). -/
def Crate.new (name vers : String) : Crate :=
  { name := name, vers := vers, yanked := true, cksum := "" }

/-- Embeds `Crate::download_url`: legacy `config.dl`-templated URL when
`use_orig_dl` is set, otherwise the static.crates.io URL. -/
def Crate.download_url (c : Crate) (config : ConfigJsonFile)
    (settings : Settings) : String :=
  if settings.use_orig_dl then
    config.dl ++ "/" ++ c.name ++ "/" ++ c.vers ++ "/download"
  else
    "https://static.crates.io/crates/" ++ c.name ++ "/" ++ c.name ++ "-"
      ++ c.vers ++ ".crate"

/-- Embeds `replace_url`.  The source reads the config, returns immediately
when the new URL equals `config.dl`, and otherwise mutates the config, writes
it back and commits it through git.  The embedding returns `none` for the
early-return path (no write of the config document, `dl_orig` untouched, no
commit) and `some config'` for the path that writes `config'` and commits. -/
def replace_url (new_url : String) (config : ConfigJsonFile) :
    Option ConfigJsonFile :=
  if new_url = config.dl then
    none
  else
    let dl_orig := match config.dl_orig with
      | some x => x
      | none => config.dl
    some { dl := new_url, api := config.api, dl_orig := some dl_orig }

/-! ### String and Crate ordering

Rust compares `String`s lexicographically; `impl Ord for Crate` compares
`name` first, then `vers`.  We embed the strict-less-than facet of that
order as an executable Boolean comparison on the character data. -/

/-- Lexicographic strict order on character lists, by scalar value; embeds
the lexicographic `String::cmp` of the source. -/
def lexLt : List Char → List Char → Bool
  | _, [] => false
  | [], _ :: _ => true
  | a :: as, b :: bs =>
      decide (a.toNat < b.toNat) || (a.toNat == b.toNat && lexLt as bs)

/-- Strict lexicographic order on strings. -/
def strLt (a b : String) : Bool := lexLt a.data b.data

/-- Embeds `impl Ord for Crate`: primary key `name`, secondary key `vers`
(strict-less-than facet). -/
def crateLt (a b : Crate) : Bool :=
  strLt a.name b.name || (a.name == b.name && strLt a.vers b.vers)

/-- Embeds `impl PartialEq for Crate`: equality on `(name, vers)` only. -/
def crateEq (a b : Crate) : Bool := a.name == b.name && a.vers == b.vers

theorem lexLt_irrefl (l : List Char) : lexLt l l = false := by
  induction l with
  | nil => rfl
  | cons a as ih => simp [lexLt, ih]

theorem lexLt_trans {a b c : List Char} (h1 : lexLt a b = true)
    (h2 : lexLt b c = true) : lexLt a c = true := by
  induction a generalizing b c with
  | nil =>
      cases b with
      | nil => simp [lexLt] at h1
      | cons x xs =>
          cases c with
          | nil => simp [lexLt] at h2
          | cons y ys => simp [lexLt]
  | cons p ps ih =>
      cases b with
      | nil => simp [lexLt] at h1
      | cons x xs =>
          cases c with
          | nil => simp [lexLt] at h2
          | cons y ys =>
              simp only [lexLt, Bool.or_eq_true, Bool.and_eq_true,
                decide_eq_true_eq, beq_iff_eq] at h1 h2 ⊢
              rcases h1 with h1 | ⟨he1, hr1⟩
              · rcases h2 with h2 | ⟨he2, hr2⟩
                · exact Or.inl (Nat.lt_trans h1 h2)
                · exact Or.inl (by omega)
              · rcases h2 with h2 | ⟨he2, hr2⟩
                · exact Or.inl (by omega)
                · exact Or.inr ⟨by omega, ih hr1 hr2⟩

theorem strLt_irrefl (s : String) : strLt s s = false := lexLt_irrefl s.data

theorem strLt_trans {a b c : String} (h1 : strLt a b = true)
    (h2 : strLt b c = true) : strLt a c = true := lexLt_trans h1 h2

theorem crateLt_trans {a b c : Crate} (h1 : crateLt a b = true)
    (h2 : crateLt b c = true) : crateLt a c = true := by
  simp only [crateLt, Bool.or_eq_true, Bool.and_eq_true, beq_iff_eq]
    at h1 h2 ⊢
  rcases h1 with h1 | ⟨he1, hv1⟩
  · rcases h2 with h2 | ⟨he2, hv2⟩
    · exact Or.inl (strLt_trans h1 h2)
    · exact Or.inl (he2 ▸ h1)
  · rcases h2 with h2 | ⟨he2, hv2⟩
    · exact Or.inl (he1.symm ▸ h2)
    · exact Or.inr ⟨he1.trans he2, strLt_trans hv1 hv2⟩

theorem crateLt_irrefl_key {a b : Crate} (hn : a.name = b.name)
    (hv : a.vers = b.vers) : crateLt a b = false := by
  simp [crateLt, hn, hv, strLt_irrefl]

theorem crateLt_eq_false_of_key {a b : Crate} (hn : a.name = b.name)
    (hv : a.vers = b.vers) : ¬ crateLt a b = true := by
  rw [crateLt_irrefl_key hn hv]
  exact Bool.false_ne_true

/-! ### The canonical record set

`read_crate_index` accumulates records in a `BTreeSet<Crate>`.  We model the
set as a strictly sorted list (sorted by `crateLt`, the `Ord` of the source).
`insertCrate` embeds `BTreeSet::insert`: when an `Ord`-equal element is
already present, the set is left unchanged (the stored element is *not*
replaced).  `removeCrate` embeds `BTreeSet::remove`. -/

/-- The ordering invariant of the `BTreeSet` model. -/
abbrev SortedCrates (l : List Crate) : Prop :=
  l.Pairwise fun a b => crateLt a b = true

/-- Embeds `BTreeSet::insert` on the sorted-list model.  On an `Ord`-equal
element the existing entry is retained and the set is not modified. -/
def insertCrate (c : Crate) : List Crate → List Crate
  | [] => [c]
  | x :: xs =>
      if crateLt c x then c :: x :: xs
      else if crateLt x c then x :: insertCrate c xs
      else x :: xs

/-- Embeds `BTreeSet::remove`: drops the element that is `Ord`-equal
(equivalently `PartialEq`-equal) to `c`, if present. -/
def removeCrate (c : Crate) : List Crate → List Crate
  | [] => []
  | x :: xs => if crateEq x c then xs else x :: removeCrate c xs

theorem mem_insertCrate {c x : Crate} {l : List Crate}
    (h : x ∈ insertCrate c l) : x = c ∨ x ∈ l := by
  induction l with
  | nil => exact Or.inl (by simpa [insertCrate] using h)
  | cons y ys ih =>
      unfold insertCrate at h
      split at h
      · rcases List.mem_cons.mp h with h | h
        · exact Or.inl h
        · exact Or.inr h
      · split at h
        · rcases List.mem_cons.mp h with h | h
          · exact Or.inr (h ▸ List.mem_cons_self y ys)
          · rcases ih h with h | h
            · exact Or.inl h
            · exact Or.inr (List.mem_cons_of_mem y h)
        · exact Or.inr h

theorem sortedCrates_insert {c : Crate} {l : List Crate}
    (h : SortedCrates l) : SortedCrates (insertCrate c l) := by
  induction l with
  | nil => simp [insertCrate]
  | cons y ys ih =>
      rcases List.pairwise_cons.mp h with ⟨hy, hys⟩
      unfold insertCrate
      split
      · rename_i h1
        refine List.pairwise_cons.mpr ⟨?_, h⟩
        intro z hz
        rcases List.mem_cons.mp hz with rfl | hz
        · exact h1
        · exact crateLt_trans h1 (hy z hz)
      · split
        · rename_i h1 h2
          refine List.pairwise_cons.mpr ⟨?_, ih hys⟩
          intro z hz
          rcases mem_insertCrate hz with rfl | hz
          · exact h2
          · exact hy z hz
        · exact h

theorem mem_removeCrate {c x : Crate} {l : List Crate}
    (h : x ∈ removeCrate c l) : x ∈ l := by
  induction l with
  | nil => simp [removeCrate] at h
  | cons y ys ih =>
      unfold removeCrate at h
      split at h
      · exact List.mem_cons_of_mem y h
      · rcases List.mem_cons.mp h with rfl | h
        · exact List.mem_cons_self _ _
        · exact List.mem_cons_of_mem _ (ih h)

theorem sortedCrates_remove {u : Crate} {l : List Crate}
    (hs : SortedCrates l) : SortedCrates (removeCrate u l) := by
  induction l with
  | nil => simp [removeCrate]
  | cons y ys ih =>
      rcases List.pairwise_cons.mp hs with ⟨hy, hys⟩
      unfold removeCrate
      split
      · exact hys
      · exact List.pairwise_cons.mpr
          ⟨fun z hz => hy z (mem_removeCrate hz), ih hys⟩

theorem removeCrate_no_key {u x : Crate} {l : List Crate}
    (hs : SortedCrates l) (hx : x ∈ removeCrate u l)
    (hn : x.name = u.name) (hv : x.vers = u.vers) : False := by
  induction l with
  | nil => simp [removeCrate] at hx
  | cons y ys ih =>
      rcases List.pairwise_cons.mp hs with ⟨hy, hys⟩
      unfold removeCrate at hx
      split at hx
      · rename_i heq
        simp only [crateEq, Bool.and_eq_true, beq_iff_eq] at heq
        have hlt : crateLt y x = true := hy x hx
        rw [crateLt_irrefl_key (by rw [heq.1, hn]) (by rw [heq.2, hv])]
          at hlt
        exact Bool.false_ne_true hlt
      · rename_i hne
        rcases List.mem_cons.mp hx with rfl | hx
        · simp only [crateEq, Bool.and_eq_true, beq_iff_eq] at hne
          exact hne ⟨hn, hv⟩
        · exact ih hys hx

/-! ### The index reader

`read_crate_index` walks every non-hidden index file other than
`config.json` and parses each line to a `Crate`.  The traversal, file I/O
and JSON decoding (whose failures are fatal) are external plumbing; the
embedding takes the index as the parsed content of the visited files: one
`List Crate` of lines per file. -/

/-- Embeds the per-line selection condition of `read_crate_index`:
`(settings.download_yanked || crate_info.yanked == false) &&
 (settings.download_old || iter.peek().is_none())`, where `isLast` stands
for `iter.peek().is_none()`. -/
def eligibleLine (settings : Settings) (isLast : Bool) (c : Crate) : Bool :=
  (settings.download_yanked || c.yanked == false) &&
    (settings.download_old || isLast)

/-- Embeds the per-file line loop of `read_crate_index`: the peekable
iterator inserts each eligible line into the accumulated set. -/
def readFileLines (settings : Settings) (ret : List Crate) :
    List Crate → List Crate
  | [] => ret
  | c :: rest =>
      if eligibleLine settings rest.isEmpty c then
        readFileLines settings (insertCrate c ret) rest
      else
        readFileLines settings ret rest

/-- Embeds the fixed `unavailable_crates` deny-list of `read_crate_index`. -/
def unavailable_crates : List Crate :=
  [Crate.new "STD" "0.1.0",
   Crate.new "glib-2-0-sys" "0.0.1",
   Crate.new "glib-2-0-sys" "0.0.2",
   Crate.new "glib-2-0-sys" "0.0.3",
   Crate.new "glib-2-0-sys" "0.0.4",
   Crate.new "glib-2-0-sys" "0.0.5",
   Crate.new "glib-2-0-sys" "0.0.6",
   Crate.new "glib-2-0-sys" "0.0.7",
   Crate.new "glib-2-0-sys" "0.0.8",
   Crate.new "glib-2-0-sys" "0.1.0",
   Crate.new "glib-2-0-sys" "0.1.1",
   Crate.new "glib-2-0-sys" "0.1.2",
   Crate.new "glib-2-0-sys" "0.2.0",
   Crate.new "gobject-2-0-sys" "0.0.2",
   Crate.new "gobject-2-0-sys" "0.0.3",
   Crate.new "gobject-2-0-sys" "0.0.4",
   Crate.new "gobject-2-0-sys" "0.0.5",
   Crate.new "gobject-2-0-sys" "0.0.6",
   Crate.new "gobject-2-0-sys" "0.0.7",
   Crate.new "gobject-2-0-sys" "0.0.8",
   Crate.new "gobject-2-0-sys" "0.0.9",
   Crate.new "gobject-2-0-sys" "0.1.0",
   Crate.new "gobject-2-0-sys" "0.2.0",
   Crate.new "ojfiewijogwhiogerhiugerhiuegr" "0.1.0",
   Crate.new "ojfiewijogwhiogerhiugerhiuegr" "0.1.1",
   Crate.new "ojfiewijogwhiogerhiugerhiuegr" "0.1.2",
   Crate.new "rustbook" "0.1.0",
   Crate.new "rustbook" "0.2.0",
   Crate.new "rustbook" "0.3.0",
   Crate.new "cargo-ctags" "0.2.3",
   Crate.new "wright" "0.2.2",
   Crate.new "stitch" "0.1.0"]

/-- Embeds `read_crate_index`: fold the per-file loop over all visited
files starting from the empty set, then remove every deny-list entry. -/
def read_crate_index (index : List (List Crate)) (settings : Settings) :
    List Crate :=
  unavailable_crates.foldl (fun acc c => removeCrate c acc)
    (index.foldl (fun acc file => readFileLines settings acc file) [])

/-- The lines of one file that satisfy the selection rule of the spec:
keep a line iff (includeYanked or not yanked) and (includeOldVersions or
it is the last line of its file). -/
def selectedLines (settings : Settings) : List Crate → List Crate
  | [] => []
  | c :: rest =>
      if eligibleLine settings rest.isEmpty c then
        c :: selectedLines settings rest
      else
        selectedLines settings rest

/-- Claim C2: the per-file loop inserts a parsed record into the canonical
set if and only if (includeYanked or the record is not yanked) and
(includeOldVersions or the line is the last line of its file): the loop
equals inserting exactly the lines selected by that rule, so all other
records are rejected. -/
theorem readFileLines_inserts_selected (settings : Settings)
    (ret : List Crate) (lines : List Crate) :
    readFileLines settings ret lines =
      (selectedLines settings lines).foldl
        (fun acc c => insertCrate c acc) ret := by
  induction lines generalizing ret with
  | nil => rfl
  | cons c rest ih =>
      unfold readFileLines selectedLines
      split
      · rw [ih, List.foldl_cons]
      · rw [ih]

theorem sortedCrates_readFileLines (settings : Settings) {ret : List Crate}
    (hs : SortedCrates ret) (lines : List Crate) :
    SortedCrates (readFileLines settings ret lines) := by
  induction lines generalizing ret with
  | nil => exact hs
  | cons c rest ih =>
      unfold readFileLines
      split
      · exact ih (sortedCrates_insert hs)
      · exact ih hs

theorem sortedCrates_readIndexFiles (settings : Settings)
    (index : List (List Crate)) {ret : List Crate} (hs : SortedCrates ret) :
    SortedCrates
      (index.foldl (fun acc file => readFileLines settings acc file) ret) := by
  induction index generalizing ret with
  | nil => exact hs
  | cons f fs ih => exact ih (sortedCrates_readFileLines settings hs f)

theorem mem_foldl_removeCrate {x : Crate} {us : List Crate} {l : List Crate}
    (h : x ∈ us.foldl (fun acc c => removeCrate c acc) l) : x ∈ l := by
  induction us generalizing l with
  | nil => simpa using h
  | cons u us ih => exact mem_removeCrate (ih h)

theorem foldl_remove_no_key {us : List Crate} {l : List Crate}
    (hs : SortedCrates l) {u x : Crate} (hu : u ∈ us)
    (hx : x ∈ us.foldl (fun acc c => removeCrate c acc) l)
    (hn : x.name = u.name) (hv : x.vers = u.vers) : False := by
  induction us generalizing l with
  | nil => simp at hu
  | cons v vs ih =>
      rcases List.mem_cons.mp hu with rfl | hu
      · exact removeCrate_no_key hs (mem_foldl_removeCrate hx) hn hv
      · exact ih (sortedCrates_remove hs) hu hx

/-- Claim C3: for every index input and policy configuration, no element of
the canonical set returned by `read_crate_index` shares a `(name, vers)`
pair with a deny-list entry; and removing a pair that is absent from a set
is a no-op. -/
theorem read_crate_index_denylist (index : List (List Crate))
    (settings : Settings) :
    (∀ u ∈ unavailable_crates, ∀ x ∈ read_crate_index index settings,
        ¬(x.name = u.name ∧ x.vers = u.vers)) ∧
    (∀ (v : Crate) (l : List Crate),
        (∀ x ∈ l, ¬(x.name = v.name ∧ x.vers = v.vers)) →
          removeCrate v l = l) := by
  constructor
  · intro u hu x hx hk
    exact foldl_remove_no_key
      (sortedCrates_readIndexFiles settings index List.Pairwise.nil)
      hu hx hk.1 hk.2
  · intro v l h
    induction l with
    | nil => rfl
    | cons y ys ih =>
        have hy : ¬(crateEq y v = true) := by
          simp only [crateEq, Bool.and_eq_true, beq_iff_eq]
          exact h y (List.mem_cons_self y ys)
        unfold removeCrate
        rw [if_neg hy, ih (fun x hx => h x (List.mem_cons_of_mem y hx))]

/-- Witness for `read_crate_index_denylist`: an index containing the
deny-listed `rustbook 0.1.0` next to an ordinary crate yields a set holding
only the ordinary crate, and removing an absent pair is a no-op. -/
theorem read_crate_index_denylist_witness :
    (Crate.new "rustbook" "0.1.0" ∈ unavailable_crates) ∧
    ((⟨"serde", "1.0.0", false, "c2"⟩ : Crate) ∈
      read_crate_index
        [[⟨"rustbook", "0.1.0", false, "c1"⟩],
         [⟨"serde", "1.0.0", false, "c2"⟩]]
        ⟨false, true, false, false, false⟩) ∧
    (¬((⟨"serde", "1.0.0", false, "c2"⟩ : Crate).name =
          (Crate.new "rustbook" "0.1.0").name ∧
        (⟨"serde", "1.0.0", false, "c2"⟩ : Crate).vers =
          (Crate.new "rustbook" "0.1.0").vers)) ∧
    ((∀ x ∈ [(⟨"serde", "1.0.0", false, "c2"⟩ : Crate)],
        ¬(x.name = (Crate.new "wright" "0.2.2").name ∧
          x.vers = (Crate.new "wright" "0.2.2").vers)) ∧
      removeCrate (Crate.new "wright" "0.2.2")
        [(⟨"serde", "1.0.0", false, "c2"⟩ : Crate)] =
        [(⟨"serde", "1.0.0", false, "c2"⟩ : Crate)]) :=
  ⟨by decide, by decide,
   (read_crate_index_denylist
      [[⟨"rustbook", "0.1.0", false, "c1"⟩],
       [⟨"serde", "1.0.0", false, "c2"⟩]]
      ⟨false, true, false, false, false⟩).1
     (Crate.new "rustbook" "0.1.0") (by decide)
     (⟨"serde", "1.0.0", false, "c2"⟩ : Crate) (by decide),
   by decide,
   (read_crate_index_denylist [] ⟨false, true, false, false, false⟩).2
     (Crate.new "wright" "0.2.2")
     [(⟨"serde", "1.0.0", false, "c2"⟩ : Crate)] (by decide)⟩

/-- Claim C5 counterexample: two eligible lines with the same
`(name, version)` key collapse to one entry, but the retained fields are
those of the *first* inserted record, not the last: `BTreeSet::insert` does
not update an existing equal entry.  With both lines eligible
(`download_old := true`), the set keeps checksum `"x"` from the first line,
not `"y"` from the last. -/
theorem insert_last_write_counterexample :
    read_crate_index
      [[⟨"a", "1", false, "x"⟩, ⟨"a", "1", false, "y"⟩]]
      ⟨false, true, false, true, false⟩
      = [⟨"a", "1", false, "x"⟩] ∧ ("x" : String) ≠ "y" :=
  ⟨by decide, by decide⟩

/-- Amended claim C5: when the reader encounters a record whose
`(name, version)` key is already present in the canonical set, the set is
left unchanged: the entries collapse to one and the first-inserted record's
fields (`yanked`, `cksum`) are the ones retained. -/
theorem insertCrate_duplicate_keeps_first {c x : Crate} {l : List Crate}
    (hs : SortedCrates l) (hx : x ∈ l) (hn : x.name = c.name)
    (hv : x.vers = c.vers) : insertCrate c l = l := by
  induction l with
  | nil => simp at hx
  | cons y ys ih =>
      rcases List.pairwise_cons.mp hs with ⟨hy, hys⟩
      rcases List.mem_cons.mp hx with rfl | hx
      · unfold insertCrate
        rw [if_neg (crateLt_eq_false_of_key hn.symm hv.symm),
          if_neg (crateLt_eq_false_of_key hn hv)]
      · unfold insertCrate
        by_cases h1 : crateLt c y = true
        · exact absurd (crateLt_trans h1 (hy x hx))
            (crateLt_eq_false_of_key hn.symm hv.symm)
        · rw [if_neg h1]
          by_cases h2 : crateLt y c = true
          · rw [if_pos h2, ih hys hx]
          · rw [if_neg h2]

/-- Witness for `insertCrate_duplicate_keeps_first`. -/
theorem insertCrate_duplicate_keeps_first_witness :
    SortedCrates [(⟨"a", "1", false, "x"⟩ : Crate)] ∧
    (⟨"a", "1", false, "x"⟩ : Crate) ∈ [(⟨"a", "1", false, "x"⟩ : Crate)] ∧
    insertCrate ⟨"a", "1", true, "y"⟩ [(⟨"a", "1", false, "x"⟩ : Crate)] =
      [(⟨"a", "1", false, "x"⟩ : Crate)] :=
  ⟨by simp, by simp,
   @insertCrate_duplicate_keeps_first ⟨"a", "1", true, "y"⟩
     ⟨"a", "1", false, "x"⟩ [(⟨"a", "1", false, "x"⟩ : Crate)]
     (by simp) (by simp) rfl rfl⟩

/-! ### The archive fetcher

`fetch_crates` iterates the canonical record set.  For each record it
either verifies/skips an already-materialized archive file or downloads the
payload, verifies its digest and materializes it by writing a temporary
`.part` file and renaming it into place.  The archive directory is modelled
as a partial map from filename to byte content; the performed writes and
renames are recorded as an operation list so that intermediate states are
observable. -/

/-- The archive directory: a partial map from filename to byte content. -/
def FsState := String → Option (List Nat)

/-- The file-system effects the `fetch_crates` loop performs on the archive
directory: whole-file writes (`File::create` + `write_all`) and atomic
renames (`fs::rename`). -/
inductive FsOp where
  | write (path : String) (content : List Nat)
  | rename (src dst : String)
deriving DecidableEq, Repr

/-- Apply one file operation to the directory state. -/
def applyOp (fs : FsState) : FsOp → FsState
  | .write p c => fun q => if q = p then some c else fs q
  | .rename s d => fun q => if q = d then fs s else if q = s then none else fs q

/-- Apply a sequence of file operations. -/
def applyOps (fs : FsState) (ops : List FsOp) : FsState :=
  ops.foldl applyOp fs

/-- The fatal conditions of the per-record loop of `fetch_crates` (each
prints a message and exits the process with status 1 in the source). -/
inductive FatalKind where
  | existingMismatch (name vers expected actual : String)
  | unavailable (name vers : String)
  | strictMismatch (name vers expected actual : String)
deriving DecidableEq, Repr

/-- The effect of one iteration of the `fetch_crates` loop: the file
operations performed and the optional deferred checksum-mismatch entry
(pushed onto `checksum_mismatches` in the source). -/
structure CrateStep where
  ops : List FsOp
  mismatch : Option (Crate × String)
deriving DecidableEq, Repr

/-- The target filename: `format!("{}-{}.crate", c.name, c.vers)`. -/
def crateFileName (c : Crate) : String :=
  c.name ++ "-" ++ c.vers ++ ".crate"

/-- The temporary sibling filename: `format!("{}.part", crate_name)`. -/
def partFileName (c : Crate) : String :=
  crateFileName c ++ ".part"

/-- The hard-coded sha256 digest of the upstream "crate not found" response
body (crates.io answers HTTP 200 with that body for missing crates). -/
def notFoundHash : String :=
  "59d2652e67d6af1844f035488a12ecdd3c680554eff0bf982aad28814b5963a9"

/-- Embeds one iteration of the `fetch_crates` loop for record `c`, given
the digest primitive `sha` (`sha256sum` in the source), the transport
collaborator `fetch` (a successful GET with redirects; transport failures
abort the process before the logic modelled here) and the current archive
directory `fs`. -/
def processCrate (settings : Settings) (sha : List Nat → String)
    (fetch : String → List Nat) (config : ConfigJsonFile) (fs : FsState)
    (c : Crate) : Except FatalKind CrateStep :=
  match fs (crateFileName c) with
  | some content =>
      if settings.check_sums then
        let hash := sha content
        if hash ≠ c.cksum then
          .error (.existingMismatch c.name c.vers c.cksum hash)
        else
          .ok ⟨[], none⟩
      else
        .ok ⟨[], none⟩
  | none =>
      let output := fetch (c.download_url config settings)
      let hash := sha output
      if hash = notFoundHash then
        .error (.unavailable c.name c.vers)
      else if hash ≠ c.cksum then
        if settings.strict_mode then
          .error (.strictMismatch c.name c.vers c.cksum hash)
        else
          .ok ⟨[], some (c, hash)⟩
      else
        .ok ⟨[.write (partFileName c) output,
             .rename (partFileName c) (crateFileName c)], none⟩

/-- Embeds the whole `fetch_crates` loop: process the records in order,
threading the archive directory state, and return the performed file
operations together with the deferred mismatch list — or the first fatal
condition. -/
def fetchCrates (settings : Settings) (sha : List Nat → String)
    (fetch : String → List Nat) (config : ConfigJsonFile) :
    List Crate → FsState →
      Except FatalKind (List FsOp × List (Crate × String))
  | [], _ => .ok ([], [])
  | c :: rest, fs =>
      match processCrate settings sha fetch config fs c with
      | .error k => .error k
      | .ok step =>
          match fetchCrates settings sha fetch config rest
              (applyOps fs step.ops) with
          | .error k => .error k
          | .ok (ops, ms) =>
              .ok (step.ops ++ ops, step.mismatch.toList ++ ms)

/-- Embeds the end-of-run summary of `fetch_crates`: when not in strict
mode, every deferred `(name, vers, expected, actual)` tuple is printed. -/
def summaryTuples (settings : Settings) (ms : List (Crate × String)) :
    List (String × String × String × String) :=
  if settings.strict_mode then []
  else ms.map fun p => (p.1.name, p.1.vers, p.1.cksum, p.2)

theorem crateFileName_getLast (c : Crate) :
    (crateFileName c).data.getLast? = some 'e' := by
  unfold crateFileName
  rw [String.data_append, List.getLast?_append_of_ne_nil _ (by decide)]
  decide

theorem partFileName_getLast (c : Crate) :
    (partFileName c).data.getLast? = some 't' := by
  unfold partFileName
  rw [String.data_append, List.getLast?_append_of_ne_nil _ (by decide)]
  decide

/-- A temporary `.part` filename never collides with any final `.crate`
filename (their last characters differ). -/
theorem partFileName_ne_crateFileName (x y : Crate) :
    partFileName x ≠ crateFileName y := by
  intro h
  have h2 : (partFileName x).data.getLast? =
      (crateFileName y).data.getLast? := by rw [h]
  rw [partFileName_getLast, crateFileName_getLast] at h2
  simp at h2

/-- Helper: a fresh download whose digest is neither the sentinel nor the
declared checksum is deferred in non-strict mode: no file operation, the
`(crate, actual hash)` pair is pushed. -/
theorem processCrate_defer {settings : Settings} {sha : List Nat → String}
    {fetch : String → List Nat} {config : ConfigJsonFile} {fs : FsState}
    {c : Crate} (hstrict : settings.strict_mode = false)
    (hnone : fs (crateFileName c) = none)
    (hns : sha (fetch (c.download_url config settings)) ≠ notFoundHash)
    (hmis : sha (fetch (c.download_url config settings)) ≠ c.cksum) :
    processCrate settings sha fetch config fs c =
      .ok ⟨[], some (c, sha (fetch (c.download_url config settings)))⟩ := by
  simp [processCrate, hnone, hns, hmis, hstrict]

/-- Claim C6: for a record whose final archive file already exists with
`content`: with `check_sums` on, the whole content is digested and a
mismatch is fatal (`existingMismatch`) — `strict_mode` is arbitrary here,
so the fatality is independent of it; with `check_sums` off the record is
skipped with a result independent of the content.  In either non-fatal case
the step performs no file operation and defers nothing (`⟨[], none⟩`), so
processing moves to the next record; the result never consults `fetch`
(which is universally quantified), i.e. no download is performed. -/
theorem processCrate_existing (settings : Settings) (sha : List Nat → String)
    (fetch : String → List Nat) (config : ConfigJsonFile) (fs : FsState)
    (c : Crate) (content : List Nat)
    (hex : fs (crateFileName c) = some content) :
    (settings.check_sums = true → sha content ≠ c.cksum →
        processCrate settings sha fetch config fs c =
          .error (.existingMismatch c.name c.vers c.cksum (sha content))) ∧
    (settings.check_sums = true → sha content = c.cksum →
        processCrate settings sha fetch config fs c = .ok ⟨[], none⟩) ∧
    (settings.check_sums = false →
        processCrate settings sha fetch config fs c = .ok ⟨[], none⟩) :=
  ⟨fun hc hm => by simp [processCrate, hex, hc, hm],
   fun hc hm => by simp [processCrate, hex, hc, hm],
   fun hc => by simp [processCrate, hex, hc]⟩

/-- Witness for `processCrate_existing` at a concrete existing file. -/
theorem processCrate_existing_witness :
    ((fun q => if q = crateFileName ⟨"n", "1", false, "aa"⟩ then
        some [7] else none) : FsState) (crateFileName ⟨"n", "1", false, "aa"⟩)
        = some [7] ∧
    ((⟨false, true, false, false, false⟩ : Settings).check_sums = true →
      (fun _ => "bb") [7] ≠ (⟨"n", "1", false, "aa"⟩ : Crate).cksum →
      processCrate ⟨false, true, false, false, false⟩ (fun _ => "bb")
        (fun _ => []) ⟨"d", "a", none⟩
        (fun q => if q = crateFileName ⟨"n", "1", false, "aa"⟩ then
          some [7] else none)
        ⟨"n", "1", false, "aa"⟩ =
        .error (.existingMismatch "n" "1" "aa" ((fun _ => "bb") [7]))) :=
  ⟨by simp,
   (processCrate_existing ⟨false, true, false, false, false⟩ (fun _ => "bb")
      (fun _ => []) ⟨"d", "a", none⟩
      (fun q => if q = crateFileName ⟨"n", "1", false, "aa"⟩ then
        some [7] else none)
      ⟨"n", "1", false, "aa"⟩ [7] (by simp)).1⟩

/-- Claim C7: when a fresh download's digest equals the sentinel digest of
the upstream "not found" body, the record is fatal (`unavailable`) before
any comparison with the record's declared checksum — `c.cksum` is arbitrary
in this statement — and the whole run halts there with no file written
(the fatal result carries no file operation, and `fetchCrates` propagates
it for any remaining records). -/
theorem processCrate_unavailable (settings : Settings)
    (sha : List Nat → String) (fetch : String → List Nat)
    (config : ConfigJsonFile) (fs : FsState) (c : Crate)
    (hnone : fs (crateFileName c) = none)
    (hsent : sha (fetch (c.download_url config settings)) = notFoundHash) :
    processCrate settings sha fetch config fs c =
      .error (.unavailable c.name c.vers) ∧
    ∀ rest, fetchCrates settings sha fetch config (c :: rest) fs =
      .error (.unavailable c.name c.vers) := by
  have h1 : processCrate settings sha fetch config fs c =
      .error (.unavailable c.name c.vers) := by
    simp [processCrate, hnone, hsent]
  exact ⟨h1, fun rest => by simp [fetchCrates, h1]⟩

/-- Witness for `processCrate_unavailable`. -/
theorem processCrate_unavailable_witness :
    ((fun _ => none) : FsState) (crateFileName ⟨"n", "1", false, "aa"⟩)
      = none ∧
    (fun _ => notFoundHash) ((fun _ => ([] : List Nat))
      ((⟨"n", "1", false, "aa"⟩ : Crate).download_url ⟨"d", "a", none⟩
        ⟨false, true, false, false, false⟩)) = notFoundHash ∧
    processCrate ⟨false, true, false, false, false⟩ (fun _ => notFoundHash)
      (fun _ => []) ⟨"d", "a", none⟩ (fun _ => none)
      ⟨"n", "1", false, "aa"⟩ = .error (.unavailable "n" "1") ∧
    fetchCrates ⟨false, true, false, false, false⟩ (fun _ => notFoundHash)
      (fun _ => []) ⟨"d", "a", none⟩ [⟨"n", "1", false, "aa"⟩]
      (fun _ => none) = .error (.unavailable "n" "1") :=
  ⟨rfl, rfl,
   (processCrate_unavailable ⟨false, true, false, false, false⟩
      (fun _ => notFoundHash) (fun _ => []) ⟨"d", "a", none⟩ (fun _ => none)
      ⟨"n", "1", false, "aa"⟩ rfl rfl).1,
   (processCrate_unavailable ⟨false, true, false, false, false⟩
      (fun _ => notFoundHash) (fun _ => []) ⟨"d", "a", none⟩ (fun _ => none)
      ⟨"n", "1", false, "aa"⟩ rfl rfl).2 []⟩

/-- Claim C10: `check_sums` gates only the verification of existing archive
files.  For a fresh download (final file absent) with `check_sums = false`,
the payload digest is still compared to the declared checksum: on a
(non-sentinel) mismatch, strict mode is fatal (`strictMismatch`) and
non-strict mode defers the `(crate, actual)` pair and writes nothing. -/
theorem processCrate_verifies_fresh_downloads (settings : Settings)
    (sha : List Nat → String) (fetch : String → List Nat)
    (config : ConfigJsonFile) (fs : FsState) (c : Crate)
    (_hnochk : settings.check_sums = false)
    (hnone : fs (crateFileName c) = none)
    (hns : sha (fetch (c.download_url config settings)) ≠ notFoundHash)
    (hmis : sha (fetch (c.download_url config settings)) ≠ c.cksum) :
    (settings.strict_mode = true →
        processCrate settings sha fetch config fs c =
          .error (.strictMismatch c.name c.vers c.cksum
            (sha (fetch (c.download_url config settings))))) ∧
    (settings.strict_mode = false →
        processCrate settings sha fetch config fs c =
          .ok ⟨[], some (c, sha (fetch (c.download_url config settings)))⟩) :=
  ⟨fun hstrict => by simp [processCrate, hnone, hns, hmis, hstrict],
   fun hstrict => processCrate_defer hstrict hnone hns hmis⟩

/-- Witness for `processCrate_verifies_fresh_downloads`, at `check_sums =
false`, once in strict mode (fatal) and once in non-strict mode (deferred). -/
theorem processCrate_verifies_fresh_downloads_witness :
    ((⟨false, false, true, false, false⟩ : Settings).check_sums = false) ∧
    ((fun _ => "bb") ((fun _ => ([] : List Nat))
      ((⟨"n", "1", false, "aa"⟩ : Crate).download_url ⟨"d", "a", none⟩
        ⟨false, false, true, false, false⟩)) ≠
      (⟨"n", "1", false, "aa"⟩ : Crate).cksum) ∧
    processCrate ⟨false, false, true, false, false⟩ (fun _ => "bb")
      (fun _ => []) ⟨"d", "a", none⟩ (fun _ => none)
      ⟨"n", "1", false, "aa"⟩ =
      .error (.strictMismatch "n" "1" "aa" "bb") ∧
    processCrate ⟨false, false, false, false, false⟩ (fun _ => "bb")
      (fun _ => []) ⟨"d", "a", none⟩ (fun _ => none)
      ⟨"n", "1", false, "aa"⟩ =
      .ok ⟨[], some (⟨"n", "1", false, "aa"⟩, "bb")⟩ :=
  ⟨rfl, by decide,
   (processCrate_verifies_fresh_downloads ⟨false, false, true, false, false⟩
      (fun _ => "bb") (fun _ => []) ⟨"d", "a", none⟩ (fun _ => none)
      ⟨"n", "1", false, "aa"⟩ rfl rfl (by decide) (by decide)).1 rfl,
   (processCrate_verifies_fresh_downloads ⟨false, false, false, false, false⟩
      (fun _ => "bb") (fun _ => []) ⟨"d", "a", none⟩ (fun _ => none)
      ⟨"n", "1", false, "aa"⟩ rfl rfl (by decide) (by decide)).2 rfl⟩

/-- Claim C1: for a record that gets downloaded (its final file is absent),
a successful step either performs no file operation at all (the deferred
mismatch path) or performs exactly a full write of the verified payload
(digest equal to the declared checksum) to the `.part` sibling followed by
the rename to the final name; and after every step-by-step position in that
operation sequence the final filename is either absent or bound to the
complete verified payload. -/
theorem processCrate_atomic (settings : Settings) (sha : List Nat → String)
    (fetch : String → List Nat) (config : ConfigJsonFile) (fs : FsState)
    (c : Crate) (step : CrateStep)
    (hnone : fs (crateFileName c) = none)
    (h : processCrate settings sha fetch config fs c = .ok step) :
    (step.ops = [] ∨
      (sha (fetch (c.download_url config settings)) = c.cksum ∧
        step.ops =
          [.write (partFileName c) (fetch (c.download_url config settings)),
           .rename (partFileName c) (crateFileName c)])) ∧
    ∀ n, applyOps fs (step.ops.take n) (crateFileName c) = none ∨
      (applyOps fs (step.ops.take n) (crateFileName c) =
          some (fetch (c.download_url config settings)) ∧
        sha (fetch (c.download_url config settings)) = c.cksum) := by
  unfold processCrate at h
  rw [hnone] at h
  by_cases hsent :
      sha (fetch (c.download_url config settings)) = notFoundHash
  · rw [if_pos hsent] at h
    exact absurd h (by simp)
  · rw [if_neg hsent] at h
    by_cases hmis : sha (fetch (c.download_url config settings)) ≠ c.cksum
    · rw [if_pos hmis] at h
      by_cases hstrict : settings.strict_mode = true
      · rw [if_pos hstrict] at h
        exact absurd h (by simp)
      · rw [if_neg hstrict] at h
        have hstep : step = ⟨[], some (c,
            sha (fetch (c.download_url config settings)))⟩ :=
          (Except.ok.inj h).symm
        subst hstep
        refine ⟨Or.inl rfl, fun n => Or.inl ?_⟩
        simpa [applyOps] using hnone
    · rw [if_neg hmis] at h
      have hcks : sha (fetch (c.download_url config settings)) = c.cksum :=
        not_not.mp hmis
      have hstep : step = ⟨[.write (partFileName c)
          (fetch (c.download_url config settings)),
          .rename (partFileName c) (crateFileName c)], none⟩ :=
        (Except.ok.inj h).symm
      subst hstep
      refine ⟨Or.inr ⟨hcks, rfl⟩, fun n => ?_⟩
      match n with
      | 0 => exact Or.inl (by simpa [applyOps] using hnone)
      | 1 =>
          left
          have hne : crateFileName c ≠ partFileName c :=
            fun hh => partFileName_ne_crateFileName c c hh.symm
          simp only [List.take_succ_cons, List.take_zero, applyOps,
            List.foldl_cons, List.foldl_nil, applyOp]
          rw [if_neg hne]
          exact hnone
      | (n + 2) =>
          right
          refine ⟨?_, hcks⟩
          simp only [List.take_succ_cons, List.take_nil, applyOps,
            List.foldl_cons, List.foldl_nil, applyOp]
          simp

/-- Witness for `processCrate_atomic` at a concrete verified download. -/
theorem processCrate_atomic_witness :
    ((fun _ => none) : FsState) (crateFileName ⟨"n", "1", false, "aa"⟩)
      = none ∧
    processCrate ⟨false, false, false, false, false⟩ (fun _ => "aa")
      (fun _ => [7]) ⟨"d", "a", none⟩ (fun _ => none)
      ⟨"n", "1", false, "aa"⟩ =
      .ok ⟨[.write (partFileName ⟨"n", "1", false, "aa"⟩) [7],
           .rename (partFileName ⟨"n", "1", false, "aa"⟩)
             (crateFileName ⟨"n", "1", false, "aa"⟩)], none⟩ ∧
    ((⟨[.write (partFileName ⟨"n", "1", false, "aa"⟩) [7],
        .rename (partFileName ⟨"n", "1", false, "aa"⟩)
          (crateFileName ⟨"n", "1", false, "aa"⟩)], none⟩ : CrateStep).ops
        = [] ∨
      ((fun _ => "aa") ((fun _ => [7])
          ((⟨"n", "1", false, "aa"⟩ : Crate).download_url ⟨"d", "a", none⟩
            ⟨false, false, false, false, false⟩)) =
          (⟨"n", "1", false, "aa"⟩ : Crate).cksum ∧
        (⟨[.write (partFileName ⟨"n", "1", false, "aa"⟩) [7],
           .rename (partFileName ⟨"n", "1", false, "aa"⟩)
             (crateFileName ⟨"n", "1", false, "aa"⟩)], none⟩ : CrateStep).ops
          = [.write (partFileName ⟨"n", "1", false, "aa"⟩)
              ((fun _ => [7])
                ((⟨"n", "1", false, "aa"⟩ : Crate).download_url
                  ⟨"d", "a", none⟩ ⟨false, false, false, false, false⟩)),
             .rename (partFileName ⟨"n", "1", false, "aa"⟩)
               (crateFileName ⟨"n", "1", false, "aa"⟩)])) ∧
    (applyOps (fun _ => none)
        ((⟨[.write (partFileName ⟨"n", "1", false, "aa"⟩) [7],
            .rename (partFileName ⟨"n", "1", false, "aa"⟩)
              (crateFileName ⟨"n", "1", false, "aa"⟩)], none⟩ :
          CrateStep).ops.take 1)
        (crateFileName ⟨"n", "1", false, "aa"⟩) = none ∨
      (applyOps (fun _ => none)
          ((⟨[.write (partFileName ⟨"n", "1", false, "aa"⟩) [7],
              .rename (partFileName ⟨"n", "1", false, "aa"⟩)
                (crateFileName ⟨"n", "1", false, "aa"⟩)], none⟩ :
            CrateStep).ops.take 1)
          (crateFileName ⟨"n", "1", false, "aa"⟩) =
          some ((fun _ => [7])
            ((⟨"n", "1", false, "aa"⟩ : Crate).download_url ⟨"d", "a", none⟩
              ⟨false, false, false, false, false⟩)) ∧
        (fun _ => "aa") ((fun _ => [7])
          ((⟨"n", "1", false, "aa"⟩ : Crate).download_url ⟨"d", "a", none⟩
            ⟨false, false, false, false, false⟩)) =
          (⟨"n", "1", false, "aa"⟩ : Crate).cksum)) :=
  ⟨rfl, rfl,
   (processCrate_atomic ⟨false, false, false, false, false⟩ (fun _ => "aa")
      (fun _ => [7]) ⟨"d", "a", none⟩ (fun _ => none)
      ⟨"n", "1", false, "aa"⟩ _ rfl rfl).1,
   (processCrate_atomic ⟨false, false, false, false, false⟩ (fun _ => "aa")
      (fun _ => [7]) ⟨"d", "a", none⟩ (fun _ => none)
      ⟨"n", "1", false, "aa"⟩ _ rfl rfl).2 1⟩

theorem applyOps_append (fs : FsState) (a b : List FsOp) :
    applyOps fs (a ++ b) = applyOps (applyOps fs a) b := by
  simp [applyOps, List.foldl_append]

/-- Frame property: a successful step for crate `c` touches only `c`'s
final filename and its `.part` sibling. -/
theorem processCrate_ok_frame {settings : Settings} {sha : List Nat → String}
    {fetch : String → List Nat} {config : ConfigJsonFile} {fs : FsState}
    {c : Crate} {step : CrateStep} {q : String}
    (h : processCrate settings sha fetch config fs c = .ok step)
    (hq1 : q ≠ crateFileName c) (hq2 : q ≠ partFileName c) :
    applyOps fs step.ops q = fs q := by
  simp only [processCrate] at h
  split at h
  · split at h
    · split at h
      · exact absurd h (by simp)
      · have hstep := (Except.ok.inj h).symm
        subst hstep
        rfl
    · have hstep := (Except.ok.inj h).symm
      subst hstep
      rfl
  · split at h
    · exact absurd h (by simp)
    · split at h
      · split at h
        · exact absurd h (by simp)
        · have hstep := (Except.ok.inj h).symm
          subst hstep
          rfl
      · have hstep := (Except.ok.inj h).symm
        subst hstep
        simp only [applyOps, List.foldl_cons, List.foldl_nil, applyOp]
        rw [if_neg hq1, if_neg hq2, if_neg hq2]

/-- Helper for C4: in non-strict mode, a crate `c` whose download
mismatches keeps its final filename absent through the whole run (no other
record writes it, given distinct filenames) and, when processed, lands in
the deferred mismatch list. -/
theorem fetchCrates_deferred_aux {settings : Settings}
    {sha : List Nat → String} {fetch : String → List Nat}
    {config : ConfigJsonFile} {c : Crate}
    (hstrict : settings.strict_mode = false)
    (hns : sha (fetch (c.download_url config settings)) ≠ notFoundHash)
    (hmis : sha (fetch (c.download_url config settings)) ≠ c.cksum)
    (crates : List Crate) :
    ∀ (fs : FsState) (ops : List FsOp) (ms : List (Crate × String)),
      fs (crateFileName c) = none →
      (∀ c' ∈ crates, crateFileName c' = crateFileName c → c' = c) →
      fetchCrates settings sha fetch config crates fs = .ok (ops, ms) →
      applyOps fs ops (crateFileName c) = none ∧
        (c ∈ crates →
          (c, sha (fetch (c.download_url config settings))) ∈ ms) := by
  induction crates with
  | nil =>
      intro fs ops ms hnone hd hres
      simp only [fetchCrates, Except.ok.injEq, Prod.mk.injEq] at hres
      obtain ⟨rfl, rfl⟩ := hres
      exact ⟨hnone, by simp⟩
  | cons c₀ rest ih =>
      intro fs ops ms hnone hd hres
      unfold fetchCrates at hres
      split at hres
      · exact absurd hres (by simp)
      · rename_i step hstep
        split at hres
        · exact absurd hres (by simp)
        · rename_i ops' ms' hrest
          simp only [Except.ok.injEq, Prod.mk.injEq] at hres
          obtain ⟨rfl, rfl⟩ := hres
          by_cases hceq : c₀ = c
          · subst hceq
            rw [processCrate_defer hstrict hnone hns hmis] at hstep
            have hstepv : step = ⟨[], some (c₀,
                sha (fetch (c₀.download_url config settings)))⟩ :=
              (Except.ok.inj hstep).symm
            subst hstepv
            obtain ⟨ihA, ihB⟩ := ih fs ops' ms' hnone
              (fun c' hc' => hd c' (List.mem_cons_of_mem _ hc')) hrest
            exact ⟨ihA, fun _ => List.mem_cons_self _ _⟩
          · have hf : crateFileName c₀ ≠ crateFileName c :=
              fun hfeq => hceq (hd c₀ (List.mem_cons_self _ _) hfeq)
            have hq1 : crateFileName c ≠ crateFileName c₀ :=
              fun hh => hf hh.symm
            have hq2 : crateFileName c ≠ partFileName c₀ :=
              fun hh => partFileName_ne_crateFileName c₀ c hh.symm
            have hnone' : applyOps fs step.ops (crateFileName c) = none := by
              rw [processCrate_ok_frame hstep hq1 hq2]
              exact hnone
            obtain ⟨ihA, ihB⟩ := ih (applyOps fs step.ops) ops' ms' hnone'
              (fun c' hc' => hd c' (List.mem_cons_of_mem _ hc')) hrest
            refine ⟨?_, ?_⟩
            · rw [applyOps_append]
              exact ihA
            · intro hcm
              rcases List.mem_cons.mp hcm with hcc | hcm
              · exact absurd hcc.symm hceq
              · exact List.mem_append_right _ (ihB hcm)

/-- Claim C4: in non-strict mode, a record whose freshly downloaded
payload's digest differs from its declared checksum (and is not the
sentinel) writes no file — its final filename is still absent at the end of
a completed run, given that no other record has the same filename — while
the `(crate, actual hash)` pair lands in the deferred mismatch list, the
remaining records are still processed (the run completes with `.ok`), and
the end-of-run summary lists the `(name, vers, expected, actual)` tuple. -/
theorem fetchCrates_deferred_mismatch (settings : Settings)
    (sha : List Nat → String) (fetch : String → List Nat)
    (config : ConfigJsonFile) (crates : List Crate) (fs : FsState)
    (c : Crate) (ops : List FsOp) (ms : List (Crate × String))
    (hstrict : settings.strict_mode = false)
    (hmem : c ∈ crates)
    (hnone : fs (crateFileName c) = none)
    (hns : sha (fetch (c.download_url config settings)) ≠ notFoundHash)
    (hmis : sha (fetch (c.download_url config settings)) ≠ c.cksum)
    (hd : ∀ c' ∈ crates, crateFileName c' = crateFileName c → c' = c)
    (hres : fetchCrates settings sha fetch config crates fs =
      .ok (ops, ms)) :
    (c, sha (fetch (c.download_url config settings))) ∈ ms ∧
    applyOps fs ops (crateFileName c) = none ∧
    (c.name, c.vers, c.cksum, sha (fetch (c.download_url config settings)))
      ∈ summaryTuples settings ms := by
  obtain ⟨h1, h2⟩ :=
    fetchCrates_deferred_aux hstrict hns hmis crates fs ops ms hnone hd hres
  refine ⟨h2 hmem, h1, ?_⟩
  unfold summaryTuples
  rw [if_neg (by simp [hstrict])]
  exact List.mem_map.mpr ⟨_, h2 hmem, rfl⟩

/-- Concrete data for the C4 witness: `c4a`'s download mismatches
(digest `"ha"`, declared `"zz"`), `c4b`'s download verifies. -/
def c4a : Crate := ⟨"a", "1", false, "zz"⟩

/-- Second crate of the C4 witness run (verifies and is materialized). -/
def c4b : Crate := ⟨"b", "1", false, "hb"⟩

/-- Settings for the C4 witness run: non-strict. -/
def c4Settings : Settings := ⟨false, true, false, false, false⟩

/-- Config for the C4 witness run. -/
def c4Config : ConfigJsonFile := ⟨"d", "a", none⟩

/-- Digest primitive for the C4 witness run. -/
def c4Sha : List Nat → String := fun l => if l = [1] then "ha" else "hb"

/-- Transport collaborator for the C4 witness run. -/
def c4Fetch : String → List Nat :=
  fun u => if u = c4a.download_url c4Config c4Settings then [1] else [2]

/-- Initially empty archive for the C4 witness run. -/
def c4Fs : FsState := fun _ => none

/-- Expected operation list of the C4 witness run: only `c4b` is written. -/
def c4Ops : List FsOp :=
  [.write (partFileName c4b) [2],
   .rename (partFileName c4b) (crateFileName c4b)]

/-- Expected deferred mismatch list of the C4 witness run. -/
def c4Ms : List (Crate × String) := [(c4a, "ha")]

/-- Witness for `fetchCrates_deferred_mismatch`: a completed two-record run
in which the first record's download mismatches; the run succeeds, the
mismatch is deferred and summarized, and the first record's file is never
created. -/
theorem fetchCrates_deferred_mismatch_witness :
    (c4Settings.strict_mode = false) ∧ (c4a ∈ [c4a, c4b]) ∧
    (c4Fs (crateFileName c4a) = none) ∧
    (c4Sha (c4Fetch (c4a.download_url c4Config c4Settings)) ≠
      notFoundHash) ∧
    (c4Sha (c4Fetch (c4a.download_url c4Config c4Settings)) ≠
      c4a.cksum) ∧
    (fetchCrates c4Settings c4Sha c4Fetch c4Config [c4a, c4b] c4Fs =
      .ok (c4Ops, c4Ms)) ∧
    ((c4a, c4Sha (c4Fetch (c4a.download_url c4Config c4Settings))) ∈ c4Ms ∧
      applyOps c4Fs c4Ops (crateFileName c4a) = none ∧
      (c4a.name, c4a.vers, c4a.cksum,
        c4Sha (c4Fetch (c4a.download_url c4Config c4Settings)))
        ∈ summaryTuples c4Settings c4Ms) :=
  ⟨rfl, by simp, rfl, by decide, by decide, by rfl,
   fetchCrates_deferred_mismatch c4Settings c4Sha c4Fetch c4Config
     [c4a, c4b] c4Fs c4a c4Ops c4Ms rfl (by simp) rfl (by decide)
     (by decide) (by decide) (by rfl)⟩

/-- Claim C8: invoking the config updater with a new URL equal to the current
`dl` is an immediate no-op: the config document is not rewritten, `dl_orig`
is not modified, and nothing is committed (modelled by the `none` result). -/
theorem replace_url_noop (new_url : String) (config : ConfigJsonFile)
    (h : new_url = config.dl) :
    replace_url new_url config = none := by
  simp [replace_url, h]

/-- Witness for `replace_url_noop` at a concrete config. -/
theorem replace_url_noop_witness :
    ("u" : String) = (ConfigJsonFile.mk "u" "a" none).dl ∧
      replace_url "u" (ConfigJsonFile.mk "u" "a" none) = none :=
  ⟨rfl, replace_url_noop "u" (ConfigJsonFile.mk "u" "a" none) rfl⟩

/-- Claim C9: changing `dl` to a different URL sets `dl_orig` to the
pre-change `dl` when it was unset and leaves it untouched when already set
(`Option.getD` states both cases at once), while `dl` becomes the new URL and
`api` is preserved. -/
theorem replace_url_change (new_url : String) (config : ConfigJsonFile)
    (h : new_url ≠ config.dl) :
    replace_url new_url config =
      some { dl := new_url, api := config.api,
             dl_orig := some (config.dl_orig.getD config.dl) } := by
  unfold replace_url
  rw [if_neg h]
  cases config.dl_orig <;> rfl

/-- Witness for `replace_url_change`: first change remembers the old URL,
a second change leaves the remembered URL untouched. -/
theorem replace_url_change_witness :
    (("v" : String) ≠ (ConfigJsonFile.mk "u" "a" none).dl ∧
      replace_url "v" (ConfigJsonFile.mk "u" "a" none) =
        some (ConfigJsonFile.mk "v" "a" (some "u"))) ∧
    (("w" : String) ≠ (ConfigJsonFile.mk "v" "a" (some "u")).dl ∧
      replace_url "w" (ConfigJsonFile.mk "v" "a" (some "u")) =
        some (ConfigJsonFile.mk "w" "a" (some "u"))) :=
  ⟨⟨by decide, replace_url_change "v" (ConfigJsonFile.mk "u" "a" none)
      (by decide)⟩,
   ⟨by decide, replace_url_change "w" (ConfigJsonFile.mk "v" "a" (some "u"))
      (by decide)⟩⟩

end CratesEctype
